import Mathlib

/-!
Verification development for the cpp-optparse option-parsing engine
(src/OptionParser.h).  The repository ships only the header; the bodies of
`OptionParser::lookup_long_opt`, `handle_short_opt`, `handle_long_opt`,
`process_opt`, `add_option` and `Option::check_type` live in the missing
`OptionParser.cpp`.  Where a body is missing, the corresponding Lean
definition is modelled from the specification (spec.md §4.1, §4.2, §4.4,
§7) and its doc comment says so; definitions taken from the header itself
(the `Option` constructor defaults, the `Value` conversion operators'
interface) say which header lines they embed.
-/

namespace optparse

/-- Error taxonomy of spec.md §7: declaration-time `DuplicateFlagError`,
and the parse-time errors `UnknownOption`, `AmbiguousOption` (with the
candidate flag list), `MissingArgument` (with the number of values still
needed), `InvalidChoice` (with the allowed set) and `UnexpectedArgument`. -/
inductive ParseError where
  | DuplicateFlagError (flag : String)
  | UnknownOption (opt : String)
  | AmbiguousOption (opt : String) (candidates : List String)
  | MissingArgument (opt : String) (needed : Nat)
  | InvalidChoice (opt : String) (choices : List String)
  | UnexpectedArgument (opt : String)
deriving Repr, DecidableEq

/-- One declared option.  Embeds the `Option` class of src/OptionParser.h
lines 102-148 (renamed `OptionSpec`, the spec.md §3 name, because `Option`
is taken by Lean's core).  Short flags are kept as their single character
(the header stores the full `-f` string), long flags without their leading
`--`.  The header stores `_default` as a plain string with the empty string
meaning unset; following spec.md §3 (`default_value: optional<string>`) we
use an `Option String`. -/
structure OptionSpec where
  _short_opts : List Char := []
  _long_opts : List String := []
  _action : String := "store"
  _type : String := "string"
  _dest : String := ""
  _default : Option String := none
  _nargs : Nat := 1
  _const : String := ""
  _choices : List String := []
deriving Repr, DecidableEq

/-- Embeds the default constructor `Option() : _action("store"),
_type("string"), _nargs(1) {}` of src/OptionParser.h line 104; the
remaining members are default-constructed (empty). -/
def defaultOptionSpec : OptionSpec := {}

/-- Modelled from the spec: spec.md §4.2 step 2 fixes the zero-arity
actions as `store_true`/`store_false`/`store_const`/`count`/`help`/
`version`; `store` and `append` consume `_nargs` values. -/
def isZeroArity (o : OptionSpec) : Bool :=
  o._action = "store_true" || o._action = "store_false" ||
  o._action = "store_const" || o._action = "count" ||
  o._action = "help" || o._action = "version"

/-- The output mapping from destination key to stored value(s).  The header
(src/OptionParser.h lines 90-100) declares `Values` over a
`map<string,string>`; the `append` representation lives in the missing
`.cpp`.  Modelled from the spec: spec.md §4.4 allows "a true sequence
container" for the multi-value representation of `append`, so each
destination holds an ordered list of raw values and a `store` keeps a
one-element list. -/
abbrev ValueMap := List (String × List String)

/-- Value(s) currently stored under a destination key. -/
def vmGet : ValueMap → String → Option (List String)
  | [], _ => none
  | (k, vs) :: rest, d => if k = d then some vs else vmGet rest d

/-- Replace (or create) the entry of destination `d`. -/
def vmSet : ValueMap → String → List String → ValueMap
  | [], d, vs => [(d, vs)]
  | (k, old) :: rest, d, vs =>
      if k = d then (d, vs) :: rest else (k, old) :: vmSet rest d vs

/-- Modelled from the spec: `store` "overwrites ValueMap[dest] with the
(last) raw value" (spec.md §4.4). -/
def vmStore (vm : ValueMap) (d v : String) : ValueMap :=
  vmSet vm d [v]

/-- Modelled from the spec: `append` adds one entry per occurrence, order
preserved (spec.md §4.4). -/
def vmAppend (vm : ValueMap) (d v : String) : ValueMap :=
  vmSet vm d (((vmGet vm d).getD []) ++ [v])

/-- Best-effort decimal read used by the `count` action. -/
def natFromString (s : String) : Nat :=
  s.data.foldl (fun n c => if c.isDigit then n * 10 + (c.toNat - 48) else n) 0

/-- Embeds the registry state of `class OptionParser`
(src/OptionParser.h lines 229-231): the ordered option list `_opts` and
the two lookup indexes `_optmap_s` (short flag → spec) and `_optmap_l`
(long flag → spec), here as association lists keyed by the flag character
resp. the long name without `--`. -/
structure OptionParser where
  _opts : List OptionSpec := []
  _optmap_s : List (Char × OptionSpec) := []
  _optmap_l : List (String × OptionSpec) := []
deriving Repr

/-- First flag of `o` already bound in either index of `p`, if any. -/
def dupFlag (p : OptionParser) (o : OptionSpec) : Option String :=
  match o._short_opts.find? (fun c => (List.lookup c p._optmap_s).isSome) with
  | some c => some (String.mk ['-', c])
  | none =>
      (o._long_opts.find? (fun l => (List.lookup l p._optmap_l).isSome)).map
        (fun l => "--" ++ l)

/-- Modelled from the spec: `register(spec) -> Result<(), DuplicateFlagError>`
"fails if any flag in spec already exists in either index; on success
inserts into both indexes (as applicable) and the ordered list"
(spec.md §4.1).  The body of `OptionParser::add_option`
(src/OptionParser.h lines 175-178) is in the missing `.cpp`.  Failure
returns only the error, so the registry handed in is untouched: no partial
registration. -/
def add_option (p : OptionParser) (o : OptionSpec) : Except ParseError OptionParser :=
  match dupFlag p o with
  | some f => .error (.DuplicateFlagError f)
  | none =>
      .ok { _opts := p._opts ++ [o],
            _optmap_s := p._optmap_s ++ o._short_opts.map (fun c => (c, o)),
            _optmap_l := p._optmap_l ++ o._long_opts.map (fun l => (l, o)) }

/-- Modelled from the spec: `lookup_short(flag_char)` is exact match only
(spec.md §4.1); the body of `OptionParser::lookup_short_opt`
(src/OptionParser.h line 209) is in the missing `.cpp`. -/
def lookup_short_opt (p : OptionParser) (c : Char) : Option OptionSpec :=
  List.lookup c p._optmap_s

/-- Token `tok` is a strict non-empty prefix of the long flag `flag`
(spec.md §4.1). -/
def strictPre (tok flag : String) : Bool :=
  tok != "" && tok != flag && List.isPrefixOf tok.data flag.data

/-- All registry entries whose long flag has `tok` as a strict non-empty
prefix. -/
def longPrefixCands (p : OptionParser) (tok : String) : List (String × OptionSpec) :=
  p._optmap_l.filter (fun kv => strictPre tok kv.1)

/-- Modelled from the spec: `lookup_long(token)` "first attempts exact
match; if absent, collects all long flags for which token is a strict
non-empty prefix; succeeds only if exactly one candidate exists, fails
with AmbiguousOption listing candidates if more than one, fails with
UnknownOption if zero" (spec.md §4.1); the body of
`OptionParser::lookup_long_opt` (src/OptionParser.h line 210) is in the
missing `.cpp`. -/
def lookup_long_opt (p : OptionParser) (tok : String) : Except ParseError OptionSpec :=
  match List.lookup tok p._optmap_l with
  | some o => .ok o
  | none =>
      match longPrefixCands p tok with
      | [] => .error (.UnknownOption tok)
      | [(_, o)] => .ok o
      | cands => .error (.AmbiguousOption tok (cands.map Prod.fst))

/-- Modelled from the spec: `Option::check_type`
(src/OptionParser.h line 130, body missing) per spec.md §4.4 — for
`value_type = choice` the raw value must equal one entry of the choice
list exactly (case-sensitive), else `InvalidChoice` listing the allowed
set; numeric/boolean well-formedness is not enforced at parse time. -/
def check_type (o : OptionSpec) (opt v : String) : Except ParseError Unit :=
  if o._type = "choice" then
    if v ∈ o._choices then .ok () else .error (.InvalidChoice opt o._choices)
  else .ok ()

/-- Modelled from the spec: `OptionParser::process_opt`
(src/OptionParser.h line 215, body missing) per spec.md §4.4 — validate
each collected raw value, then `store` overwrites while `append` adds one
entry in order. -/
def process_opt (o : OptionSpec) (opt : String) : List String → ValueMap → Except ParseError ValueMap
  | [], vm => .ok vm
  | v :: vs, vm =>
      match check_type o opt v with
      | .error e => .error e
      | .ok _ =>
          let vm1 := if o._action = "append" then vmAppend vm o._dest v
                     else vmStore vm o._dest v
          process_opt o opt vs vm1

/-- Modelled from the spec: firing of a zero-arity action (spec.md §4.2
step 2 and §4.4): `store_true`/`store_false` write the fixed literals
"1"/"0", `store_const` writes the declared constant, `count` increments
the integer counter stored at dest; `help`/`version` do not touch the
value map (help/usage output is out of core scope). -/
def fireZero (o : OptionSpec) (vm : ValueMap) : ValueMap :=
  if o._action = "store_true" then vmStore vm o._dest "1"
  else if o._action = "store_false" then vmStore vm o._dest "0"
  else if o._action = "store_const" then vmStore vm o._dest o._const
  else if o._action = "count" then
    let cur := match vmGet vm o._dest with
      | some (s :: _) => natFromString s
      | _ => 0
    vmStore vm o._dest (Nat.repr (cur + 1))
  else vm

/-- Mutable state of one parse invocation: the value map being built and
the ordered leftover (positional) list, matching `_values` and
`_leftover` of src/OptionParser.h lines 227, 235. -/
structure ParseState where
  values : ValueMap
  leftover : List String
deriving Repr, DecidableEq

/-- Split a long-option token body at the first `=`: left part is the flag
name, right part (if any) the inline value (spec.md §4.2 step 1). -/
def splitEq : List Char → List Char × Option (List Char)
  | [] => ([], none)
  | c :: rest =>
      if c = '=' then ([], some rest)
      else (c :: (splitEq rest).1, (splitEq rest).2)

/-- Modelled from the spec: `OptionParser::handle_long_opt`
(src/OptionParser.h line 213, body missing) per spec.md §4.2 step 2.
`cs` is the token body after the leading `--`; `rest` the subsequent
tokens.  Zero-arity actions fire immediately and an inline `=value` for
them is `UnexpectedArgument`; for `store`/`append`, an inline value
satisfies exactly one slot and the remaining required values are taken
from `rest` in order, failing with `MissingArgument` (option name and
number still needed) when fewer tokens remain than required.  Returns the
new state and the number of tokens of `rest` consumed. -/
def handle_long_opt (p : OptionParser) (cs : List Char) (rest : List String)
    (st : ParseState) : Except ParseError (ParseState × Nat) :=
  let nm := (splitEq cs).1
  let iv := (splitEq cs).2
  let name := String.mk nm
  match lookup_long_opt p name with
  | .error e => .error e
  | .ok o =>
      if isZeroArity o then
        match iv with
        | some _ => .error (.UnexpectedArgument name)
        | none => .ok ({ st with values := fireZero o st.values }, 0)
      else
        match iv with
        | some v =>
            let needed := o._nargs - 1
            if rest.length < needed then .error (.MissingArgument name needed)
            else
              match process_opt o name (String.mk v :: rest.take needed) st.values with
              | .error e => .error e
              | .ok vm => .ok ({ st with values := vm }, needed)
        | none =>
            if rest.length < o._nargs then .error (.MissingArgument name o._nargs)
            else
              match process_opt o name (rest.take o._nargs) st.values with
              | .error e => .error e
              | .ok vm => .ok ({ st with values := vm }, o._nargs)

/-- Modelled from the spec: `OptionParser::handle_short_opt`
(src/OptionParser.h line 212, body missing) per spec.md §4.2 step 3.
Scans the cluster characters after the leading `-`: a zero-arity flag
fires and scanning advances to the next character; the first character
resolving to a positive-arity option takes the remaining non-empty suffix
of the token as its attached value (satisfying one required slot, cluster
scanning stops) or, when no characters remain, pulls its values from the
next whole tokens as in the long case; an unknown character fails with
`UnknownOption`.  Returns the new state and the number of tokens of
`rest` consumed. -/
def handle_short_opt (p : OptionParser) : List Char → List String → ParseState →
    Except ParseError (ParseState × Nat)
  | [], _, st => .ok (st, 0)
  | c :: cs, rest, st =>
      match lookup_short_opt p c with
      | none => .error (.UnknownOption (String.mk ['-', c]))
      | some o =>
          if isZeroArity o then
            handle_short_opt p cs rest { st with values := fireZero o st.values }
          else if cs.isEmpty then
            if rest.length < o._nargs then
              .error (.MissingArgument (String.mk ['-', c]) o._nargs)
            else
              match process_opt o (String.mk ['-', c]) (rest.take o._nargs) st.values with
              | .error e => .error e
              | .ok vm => .ok ({ st with values := vm }, o._nargs)
          else
            let needed := o._nargs - 1
            if rest.length < needed then
              .error (.MissingArgument (String.mk ['-', c]) needed)
            else
              match process_opt o (String.mk ['-', c]) (String.mk cs :: rest.take needed) st.values with
              | .error e => .error e
              | .ok vm => .ok ({ st with values := vm }, needed)

/-- Result of classifying one raw token (spec.md §4.2 step 1). -/
inductive TokKind where
  | ddash
  | long (body : List Char)
  | short (cluster : List Char)
  | positional
deriving Repr, DecidableEq

/-- Modelled from the spec: token classification of spec.md §4.2 step 1,
in order: exactly `--`; a long-option form (`^--`, length > 2, the body
being everything after the marker); a short-option form (`^-`, length ≥ 2
and not purely `-`, the cluster being everything after the dash); anything
else — including a bare `-` — is positional.  Length > 2 (resp. ≥ 2) is
phrased as the dropped remainder being non-empty. -/
def classify (tok : String) : TokKind :=
  if tok.data = ['-', '-'] then .ddash
  else if tok.data.take 2 = ['-', '-'] ∧ tok.data.drop 2 ≠ [] then .long (tok.data.drop 2)
  else if tok.data.take 1 = ['-'] ∧ tok.data.drop 1 ≠ [] then .short (tok.data.drop 1)
  else .positional

/-- Modelled from the spec: the ParseEngine loop of spec.md §4.2 steps
1, 5 and 6 (the parsing core of `OptionParser::parse_args`, whose body is
in the missing `.cpp`).  A `--` token terminates scanning and appends
every remaining token verbatim to the leftovers; long and short forms are
dispatched to their handler and the cursor then moves past all tokens the
occurrence consumed; positionals are appended to the leftovers. -/
def parseLoop (p : OptionParser) : List String → ParseState → Except ParseError ParseState
  | [], st => .ok st
  | tok :: rest, st =>
      match classify tok with
      | .ddash => .ok { st with leftover := st.leftover ++ rest }
      | .long body =>
          match handle_long_opt p body rest st with
          | .error e => .error e
          | .ok (st1, k) => parseLoop p (rest.drop k) st1
      | .short cluster =>
          match handle_short_opt p cluster rest st with
          | .error e => .error e
          | .ok (st1, k) => parseLoop p (rest.drop k) st1
      | .positional => parseLoop p rest { st with leftover := st.leftover ++ [tok] }
termination_by toks => toks.length
decreasing_by
  all_goals simp [List.length_drop]
  all_goals omega

/-- Modelled from the spec: the ValueMap is "pre-seeded with declared
defaults before parsing begins" (spec.md §2, §3). -/
def seedDefaults (p : OptionParser) : ValueMap :=
  p._opts.foldl
    (fun vm o =>
      match o._default with
      | some d => vmStore vm o._dest d
      | none => vm)
    []

/-- Modelled from the spec: the invocation surface
`parse(tokens, registry, seeded_values) -> Result<(ValueMap, leftover), ParseError>`
(spec.md §6), i.e. `OptionParser::parse_args` over an already-stripped
token vector. -/
def parse_args (p : OptionParser) (toks : List String) :
    Except ParseError (ValueMap × List String) :=
  match parseLoop p toks ⟨seedDefaults p, []⟩ with
  | .error e => .error e
  | .ok st => .ok (st.values, st.leftover)

/-- Equality of parse outcomes is decidable (used to evaluate the model on
concrete inputs). -/
instance {ε α : Type} [DecidableEq ε] [DecidableEq α] : DecidableEq (Except ε α) :=
  fun x y =>
    match x, y with
    | .error a, .error b =>
        if h : a = b then isTrue (by rw [h]) else isFalse (by simp [h])
    | .ok a, .ok b =>
        if h : a = b then isTrue (by rw [h]) else isFalse (by simp [h])
    | .error _, .ok _ => isFalse (by simp)
    | .ok _, .error _ => isFalse (by simp)

/-- Modelled from the spec: the numeric extraction behind the `Value`
conversion operators of src/OptionParser.h lines 76-85
(`int t; std::istringstream(s) >> t; return t;`).  The header delegates
the grammar to `istringstream`; following spec.md §2 and §4.4 we model a
best-effort, non-throwing read: optional leading whitespace, an optional
sign, then at least one decimal digit — anything after the digit run is
ignored; `none` means the extraction failed. -/
def istreamExtractInt (s : String) : Option Int :=
  let l := s.data.dropWhile Char.isWhitespace
  let sign : Int := if l.head? = some '-' then -1 else 1
  let l1 := if l.head? = some '-' ∨ l.head? = some '+' then l.tail else l
  let ds := l1.takeWhile Char.isDigit
  if ds = [] then none
  else some (sign * (ds.foldl (fun n c => n * 10 + (c.toNat - 48)) 0 : Nat))

/-- Modelled from the spec: `operator int()` — "conversion failure yields
a default-constructed target value (non-throwing, best-effort)"
(spec.md §2), so a failed extraction returns `0`, the value-initialized
`int`. -/
def valueAsInt (s : String) : Int :=
  match istreamExtractInt s with
  | some n => n
  | none => 0

/-- Modelled from the spec: `operator bool()` — a well-formed boolean text
(`1`/`0` in the default numeric format) converts to its value, anything
else is a conversion failure and yields the default-constructed `false`
(spec.md §2). -/
def valueAsBool (s : String) : Bool :=
  match istreamExtractInt s with
  | some 1 => true
  | _ => false

/-! Concrete registries used to exercise the model. -/

/-- A `store_true` flag `-v`/`--verbose`. -/
def oVerbose : OptionSpec :=
  { _short_opts := ['v'], _long_opts := ["verbose"], _action := "store_true", _dest := "v" }

/-- A `store_true` flag `-q`. -/
def oQuiet : OptionSpec :=
  { _short_opts := ['q'], _action := "store_true", _dest := "q" }

/-- A plain `store` option `-f`/`--file` of arity 1. -/
def oFile : OptionSpec :=
  { _short_opts := ['f'], _long_opts := ["file"], _dest := "f" }

/-- A plain `store` option `--flag` of arity 1, destination `d`. -/
def oFlagStore : OptionSpec := { _long_opts := ["flag"], _dest := "d" }

/-- An `append` option `--flag` of arity 1, destination `d`. -/
def oFlagAppend : OptionSpec :=
  { _long_opts := ["flag"], _action := "append", _dest := "d" }

/-- A choice-typed option `--mode` with choices `alpha`/`beta`. -/
def oMode : OptionSpec :=
  { _long_opts := ["mode"], _type := "choice", _dest := "m",
    _choices := ["alpha", "beta"] }

/-- An int-typed `store` option `--num`. -/
def oNum : OptionSpec := { _long_opts := ["num"], _type := "int", _dest := "n" }

/-- Registry with `-v`, `-q` (zero-arity) and `-f` (arity 1). -/
def pVQF : OptionParser :=
  { _opts := [oVerbose, oQuiet, oFile],
    _optmap_s := [('v', oVerbose), ('q', oQuiet), ('f', oFile)],
    _optmap_l := [("verbose", oVerbose), ("file", oFile)] }

/-- Registry with the two long flags `--file` and `--flag` (shared prefix
`fl` up to `f`, so `f` is ambiguous while `fi` is unique). -/
def pLong : OptionParser :=
  { _opts := [oFile, oFlagStore],
    _optmap_s := [('f', oFile)],
    _optmap_l := [("file", oFile), ("flag", oFlagStore)] }

/-- Registry holding only the `store` option `--flag`. -/
def pStore : OptionParser :=
  { _opts := [oFlagStore], _optmap_l := [("flag", oFlagStore)] }

/-- Registry holding only the `append` option `--flag`. -/
def pAppend : OptionParser :=
  { _opts := [oFlagAppend], _optmap_l := [("flag", oFlagAppend)] }

/-- Registry holding only the choice option `--mode`. -/
def pChoice : OptionParser :=
  { _opts := [oMode], _optmap_l := [("mode", oMode)] }

/-- Registry holding only the int-typed option `--num`. -/
def pNum : OptionParser :=
  { _opts := [oNum], _optmap_l := [("num", oNum)] }

/-- An option declared with no setter calls beyond its flag and
destination: all other members keep the constructor defaults. -/
def o10 : OptionSpec := { defaultOptionSpec with _long_opts := ["opt"], _dest := "d" }

/-- Registry holding only `o10`. -/
def p10 : OptionParser := { _opts := [o10], _optmap_l := [("opt", o10)] }

/-- A `store` option `--pair` of arity 2. -/
def oPair : OptionSpec := { _long_opts := ["pair"], _dest := "pr", _nargs := 2 }

/-- Registry holding only the arity-2 option `--pair`. -/
def pPair : OptionParser := { _opts := [oPair], _optmap_l := [("pair", oPair)] }

/-! Shared helper lemmas. -/

lemma mk_data (s : String) : String.mk s.data = s := rfl

lemma splitEq_no_eq {l : List Char} (h : '=' ∉ l) : splitEq l = (l, none) := by
  induction l with
  | nil => rfl
  | cons c t ih =>
      simp only [List.mem_cons, not_or] at h
      rw [splitEq, if_neg (fun hc => h.1 hc.symm), ih h.2]

lemma splitEq_append {l1 l2 : List Char} (h : '=' ∉ l1) :
    splitEq (l1 ++ '=' :: l2) = (l1, some l2) := by
  induction l1 with
  | nil => rw [List.nil_append, splitEq, if_pos rfl]
  | cons c t ih =>
      simp only [List.mem_cons, not_or] at h
      rw [List.cons_append, splitEq, if_neg (fun hc => h.1 hc.symm), ih h.2]

lemma classify_eq_ddash {tok : String} (h : classify tok = .ddash) : tok = "--" := by
  by_cases h1 : tok.data = ['-', '-']
  · rcases tok with ⟨d⟩
    have h1d : d = ['-', '-'] := h1
    rw [h1d]
  · unfold classify at h
    rw [if_neg h1] at h
    split_ifs at h

lemma handle_long_opt_ok_extend {p : OptionParser} {cs : List Char}
    {rest : List String} {st st1 : ParseState} {k : Nat} (ys : List String)
    (h : handle_long_opt p cs rest st = .ok (st1, k)) :
    k ≤ rest.length ∧ handle_long_opt p cs (rest ++ ys) st = .ok (st1, k) := by
  unfold handle_long_opt at h ⊢
  rcases hlk : lookup_long_opt p (String.mk (splitEq cs).1) with e | o
  · simp [hlk] at h
  · rcases hiv : (splitEq cs).2 with _ | v
    · by_cases hz : isZeroArity o = true
      · simp only [hlk, hiv, if_pos hz, Except.ok.injEq, Prod.mk.injEq] at h ⊢
        exact ⟨by omega, h⟩
      · by_cases hlen : rest.length < o._nargs
        · simp only [hlk, hiv, if_neg hz, if_pos hlen] at h
          exact absurd h (by simp)
        · push_neg at hlen
          have hlen2 : ¬((rest ++ ys).length < o._nargs) := by
            rw [List.length_append]
            omega
          simp only [hlk, hiv, if_neg hz, if_neg (not_lt.mpr hlen), if_neg hlen2,
            List.take_append_of_le_length hlen] at h ⊢
          rcases hpr : process_opt o (String.mk (splitEq cs).1)
              (rest.take o._nargs) st.values with e | vm
          · rw [hpr] at h
            simp at h
          · rw [hpr] at h
            simp only [hpr, Except.ok.injEq, Prod.mk.injEq] at h ⊢
            obtain ⟨h1, h2⟩ := h
            exact ⟨by omega, h1, h2⟩
    · by_cases hz : isZeroArity o = true
      · simp only [hlk, hiv, if_pos hz] at h
        exact absurd h (by simp)
      · by_cases hlen : rest.length < o._nargs - 1
        · simp only [hlk, hiv, if_neg hz, if_pos hlen] at h
          exact absurd h (by simp)
        · push_neg at hlen
          have hlen2 : ¬((rest ++ ys).length < o._nargs - 1) := by
            rw [List.length_append]
            omega
          simp only [hlk, hiv, if_neg hz, if_neg (not_lt.mpr hlen), if_neg hlen2,
            List.take_append_of_le_length hlen] at h ⊢
          rcases hpr : process_opt o (String.mk (splitEq cs).1)
              (String.mk v :: rest.take (o._nargs - 1)) st.values with e | vm
          · rw [hpr] at h
            simp at h
          · rw [hpr] at h
            simp only [hpr, Except.ok.injEq, Prod.mk.injEq] at h ⊢
            obtain ⟨h1, h2⟩ := h
            exact ⟨by omega, h1, h2⟩

lemma handle_short_opt_ok_extend {p : OptionParser} (ys : List String) :
    ∀ (cl : List Char) (rest : List String) (st st1 : ParseState) (k : Nat),
      handle_short_opt p cl rest st = .ok (st1, k) →
      k ≤ rest.length ∧ handle_short_opt p cl (rest ++ ys) st = .ok (st1, k) := by
  intro cl
  induction cl with
  | nil =>
      intro rest st st1 k h
      unfold handle_short_opt at h ⊢
      simp only [Except.ok.injEq, Prod.mk.injEq] at h ⊢
      exact ⟨by omega, h⟩
  | cons c cs ih =>
      intro rest st st1 k h
      unfold handle_short_opt at h ⊢
      rcases hlk : lookup_short_opt p c with _ | o
      · simp [hlk] at h
      · by_cases hz : isZeroArity o = true
        · simp only [hlk, if_pos hz] at h ⊢
          exact ih rest _ st1 k h
        · by_cases he : cs.isEmpty = true
          · by_cases hlen : rest.length < o._nargs
            · simp only [hlk, if_neg hz, if_pos he, if_pos hlen] at h
              exact absurd h (by simp)
            · push_neg at hlen
              have hlen2 : ¬((rest ++ ys).length < o._nargs) := by
                rw [List.length_append]
                omega
              simp only [hlk, if_neg hz, if_pos he, if_neg (not_lt.mpr hlen), if_neg hlen2,
                List.take_append_of_le_length hlen] at h ⊢
              rcases hpr : process_opt o (String.mk ['-', c])
                  (rest.take o._nargs) st.values with e | vm
              · rw [hpr] at h
                simp at h
              · rw [hpr] at h
                simp only [Except.ok.injEq, Prod.mk.injEq] at h ⊢
                obtain ⟨h1, h2⟩ := h
                exact ⟨by omega, h1, h2⟩
          · by_cases hlen : rest.length < o._nargs - 1
            · simp only [hlk, if_neg hz, if_neg he, if_pos hlen] at h
              exact absurd h (by simp)
            · push_neg at hlen
              have hlen2 : ¬((rest ++ ys).length < o._nargs - 1) := by
                rw [List.length_append]
                omega
              simp only [hlk, if_neg hz, if_neg he, if_neg (not_lt.mpr hlen), if_neg hlen2,
                List.take_append_of_le_length hlen] at h ⊢
              rcases hpr : process_opt o (String.mk ['-', c])
                  (String.mk cs :: rest.take (o._nargs - 1)) st.values with e | vm
              · rw [hpr] at h
                simp at h
              · rw [hpr] at h
                simp only [Except.ok.injEq, Prod.mk.injEq] at h ⊢
                obtain ⟨h1, h2⟩ := h
                exact ⟨by omega, h1, h2⟩

lemma vmGet_vmSet (vm : ValueMap) (d : String) (vs : List String) :
    vmGet (vmSet vm d vs) d = some vs := by
  induction vm with
  | nil => simp [vmGet, vmSet]
  | cons kv t ih =>
      rcases kv with ⟨k, old⟩
      by_cases hk : k = d
      · simp [vmGet, vmSet, hk]
      · simp [vmGet, vmSet, hk, ih]

/-- C1: for every registry and long-option token, `lookup_long_opt` first
attempts an exact match; failing that it collects the declared long flags
of which the token is a strict non-empty prefix and succeeds (identically
to looking up the full flag name) when exactly one candidate exists, fails
with `AmbiguousOption` listing the candidates when two or more exist, and
fails with `UnknownOption` when none exists. -/
theorem lookup_long_resolution (p : OptionParser) (tok : String) :
    (∀ o, List.lookup tok p._optmap_l = some o → lookup_long_opt p tok = .ok o) ∧
    (List.lookup tok p._optmap_l = none →
      (longPrefixCands p tok = [] →
          lookup_long_opt p tok = .error (.UnknownOption tok)) ∧
      (∀ f o, longPrefixCands p tok = [(f, o)] →
          lookup_long_opt p tok = .ok o ∧
          (List.lookup f p._optmap_l = some o →
            lookup_long_opt p tok = lookup_long_opt p f)) ∧
      (2 ≤ (longPrefixCands p tok).length →
          lookup_long_opt p tok =
            .error (.AmbiguousOption tok ((longPrefixCands p tok).map Prod.fst)))) := by
  unfold lookup_long_opt
  refine ⟨fun o ho => by rw [ho], fun hn => ⟨?_, ?_, ?_⟩⟩
  · intro hc
    rw [hn, hc]
  · intro f o hc
    refine ⟨by rw [hn, hc], fun hf => by rw [hn, hc, hf]⟩
  · intro h2
    rcases hc : longPrefixCands p tok with _ | ⟨a, _ | ⟨b, t⟩⟩
    · rw [hc] at h2
      simp at h2
    · rw [hc] at h2
      simp at h2
    · rw [hn]

/-- Witness for C1 on the concrete registry `pLong` (long flags `file`
and `flag`): `fi` abbreviates uniquely, `f` is ambiguous, `zz` is
unknown. -/
theorem lookup_long_resolution_witness :
    lookup_long_opt pLong "fi" = .ok oFile ∧
    lookup_long_opt pLong "f" = .error (.AmbiguousOption "f" ["file", "flag"]) ∧
    lookup_long_opt pLong "zz" = .error (.UnknownOption "zz") := by
  refine ⟨?_, ?_, ?_⟩
  · exact (((lookup_long_resolution pLong "fi").2 (by decide)).2.1 "file" oFile
      (by decide)).1
  · have h := ((lookup_long_resolution pLong "f").2 (by decide)).2.2 (by decide)
    have hm : (longPrefixCands pLong "f").map Prod.fst = ["file", "flag"] := by decide
    rw [hm] at h
    exact h
  · exact ((lookup_long_resolution pLong "zz").2 (by decide)).1 (by decide)

/-- An option whose short flag `-f` collides with `pVQF`. -/
def oDupF : OptionSpec := { _short_opts := ['f'], _dest := "x" }

/-- C8: registering a spec that shares any flag (short or long) with an
already-registered spec fails with `DuplicateFlagError`, and — the
registration being an `Except`-valued function of the old registry — the
failed registration modifies neither lookup index nor the ordered spec
list; a collision-free registration appends to the ordered list and
extends both indexes. -/
theorem add_option_duplicate_rejection (p : OptionParser) (o : OptionSpec) :
    (((∃ c ∈ o._short_opts, (List.lookup c p._optmap_s).isSome) ∨
      (∃ l ∈ o._long_opts, (List.lookup l p._optmap_l).isSome)) ↔
      (∃ f, add_option p o = .error (.DuplicateFlagError f))) ∧
    ((∀ c ∈ o._short_opts, List.lookup c p._optmap_s = none) →
     (∀ l ∈ o._long_opts, List.lookup l p._optmap_l = none) →
      add_option p o = .ok
        { _opts := p._opts ++ [o],
          _optmap_s := p._optmap_s ++ o._short_opts.map (fun c => (c, o)),
          _optmap_l := p._optmap_l ++ o._long_opts.map (fun l => (l, o)) }) := by
  constructor
  · constructor
    · intro hcoll
      rcases hfs : o._short_opts.find? (fun c => (List.lookup c p._optmap_s).isSome) with _ | c
      · rcases hfl : o._long_opts.find? (fun l => (List.lookup l p._optmap_l).isSome) with _ | l
        · exfalso
          rw [List.find?_eq_none] at hfs hfl
          rcases hcoll with ⟨c, hc, hsome⟩ | ⟨l, hl, hsome⟩
          · exact hfs c hc hsome
          · exact hfl l hl hsome
        · exact ⟨"--" ++ l, by unfold add_option dupFlag; rw [hfs, hfl]; rfl⟩
      · exact ⟨String.mk ['-', c], by unfold add_option dupFlag; rw [hfs]⟩
    · intro ⟨f, hf⟩
      unfold add_option dupFlag at hf
      rcases hfs : o._short_opts.find? (fun c => (List.lookup c p._optmap_s).isSome) with _ | c
      · rcases hfl : o._long_opts.find? (fun l => (List.lookup l p._optmap_l).isSome) with _ | l
        · rw [hfs, hfl] at hf
          exact absurd hf (by simp)
        · refine Or.inr ⟨l, List.mem_of_find?_eq_some hfl, ?_⟩
          have h := List.find?_some hfl
          simpa using h
      · refine Or.inl ⟨c, List.mem_of_find?_eq_some hfs, ?_⟩
        have h := List.find?_some hfs
        simpa using h
  · intro hs hl
    have hfs : o._short_opts.find? (fun c => (List.lookup c p._optmap_s).isSome) = none :=
      List.find?_eq_none.mpr (fun c hc => by rw [hs c hc]; simp)
    have hfl : o._long_opts.find? (fun l => (List.lookup l p._optmap_l).isSome) = none :=
      List.find?_eq_none.mpr (fun l hli => by rw [hl l hli]; simp)
    unfold add_option dupFlag
    rw [hfs, hfl]
    rfl

/-- Witness for C8: re-registering `-f` into `pVQF` fails with
`DuplicateFlagError`; registering `--mode` into `pStore` succeeds and
extends the registry. -/
theorem add_option_duplicate_rejection_witness :
    (∃ f, add_option pVQF oDupF = .error (.DuplicateFlagError f)) ∧
    add_option pStore oMode = .ok
      { _opts := pStore._opts ++ [oMode],
        _optmap_s := pStore._optmap_s ++ oMode._short_opts.map (fun c => (c, oMode)),
        _optmap_l := pStore._optmap_l ++ oMode._long_opts.map (fun l => (l, oMode)) } :=
  ⟨(add_option_duplicate_rejection pVQF oDupF).1.mp (by decide),
   (add_option_duplicate_rejection pStore oMode).2 (by decide) (by decide)⟩

/-- C5: for a `store` option, each occurrence overwrites the destination
entry, so after `--flag=A --flag=B` the final value map binds the
destination to the last occurrence's value `B`; in general, processing two
values of any `store` option in sequence leaves only the second one. -/
theorem store_last_occurrence_wins (A B : String) :
    parse_args pStore ["--flag=" ++ A, "--flag=" ++ B] = .ok ([("d", [B])], []) ∧
    (∀ (o : OptionSpec) (opt x y : String) (vm vm1 vm2 : ValueMap),
      o._action = "store" →
      process_opt o opt [x] vm = .ok vm1 →
      process_opt o opt [y] vm1 = .ok vm2 →
      vmGet vm2 o._dest = some [y]) := by
  constructor
  · have hA : ("--flag=" ++ A).data = '-' :: '-' :: 'f' :: 'l' :: 'a' :: 'g' :: '=' :: A.data := by
      rw [String.data_append]
      rfl
    have hB : ("--flag=" ++ B).data = '-' :: '-' :: 'f' :: 'l' :: 'a' :: 'g' :: '=' :: B.data := by
      rw [String.data_append]
      rfl
    have hmk : String.mk ['f', 'l', 'a', 'g'] = "flag" := rfl
    simp +decide [parse_args, parseLoop, classify, hA, hB, hmk, handle_long_opt, splitEq,
      lookup_long_opt, isZeroArity, process_opt, check_type, vmStore, vmSet,
      seedDefaults, longPrefixCands, strictPre, fireZero, oFlagStore, pStore, mk_data]
  · intro o opt x y vm vm1 vm2 ha h1 h2
    unfold process_opt at h2
    rcases hct : check_type o opt y with e | u
    · rw [hct] at h2
      exact absurd h2 (by simp)
    · rw [hct, ha] at h2
      simp only [process_opt] at h2
      rw [if_neg (by decide : ¬("store" : String) = "append")] at h2
      have hv := Except.ok.inj h2
      rw [← hv]
      exact vmGet_vmSet vm1 o._dest [y]

/-- Witness for C5 on the concrete registry `pStore` and the values
`A`/`B`. -/
theorem store_last_occurrence_wins_witness :
    parse_args pStore ["--flag=A", "--flag=B"] = .ok ([("d", ["B"])], []) ∧
    vmGet [("d", ["B"])] oFlagStore._dest = some ["B"] := by
  have h := store_last_occurrence_wins "A" "B"
  constructor
  · have h1 := h.1
    rw [show ("--flag=" ++ "A") = "--flag=A" from rfl,
        show ("--flag=" ++ "B") = "--flag=B" from rfl] at h1
    exact h1
  · exact h.2 oFlagStore "flag" "A" "B" [] [("d", ["A"])] [("d", ["B"])]
      (by decide) (by decide) (by decide)

/-- C6: for an `append` option, each occurrence adds exactly one entry to
the multi-value result under its destination, in occurrence order; in
particular `--flag=A --flag=B` yields the ordered two-element result
`[A, B]`. -/
theorem append_accumulates_in_order (A B : String) :
    parse_args pAppend ["--flag=" ++ A, "--flag=" ++ B] = .ok ([("d", [A, B])], []) ∧
    (∀ (o : OptionSpec) (opt w : String) (vm vm1 : ValueMap),
      o._action = "append" →
      process_opt o opt [w] vm = .ok vm1 →
      vmGet vm1 o._dest = some (((vmGet vm o._dest).getD []) ++ [w])) := by
  constructor
  · have hA : ("--flag=" ++ A).data = '-' :: '-' :: 'f' :: 'l' :: 'a' :: 'g' :: '=' :: A.data := by
      rw [String.data_append]
      rfl
    have hB : ("--flag=" ++ B).data = '-' :: '-' :: 'f' :: 'l' :: 'a' :: 'g' :: '=' :: B.data := by
      rw [String.data_append]
      rfl
    have hmk : String.mk ['f', 'l', 'a', 'g'] = "flag" := rfl
    simp +decide [parse_args, parseLoop, classify, hA, hB, hmk, handle_long_opt, splitEq,
      lookup_long_opt, isZeroArity, process_opt, check_type, vmStore, vmSet, vmAppend,
      vmGet, seedDefaults, longPrefixCands, strictPre, fireZero, oFlagAppend, pAppend,
      mk_data]
  · intro o opt w vm vm1 ha h1
    unfold process_opt at h1
    rcases hct : check_type o opt w with e | u
    · rw [hct] at h1
      exact absurd h1 (by simp)
    · rw [hct, ha] at h1
      simp only [process_opt] at h1
      rw [if_pos trivial] at h1
      have hv := Except.ok.inj h1
      rw [← hv]
      exact vmGet_vmSet vm o._dest _

/-- Witness for C6 on the concrete registry `pAppend`. -/
theorem append_accumulates_in_order_witness :
    parse_args pAppend ["--flag=A", "--flag=B"] = .ok ([("d", ["A", "B"])], []) ∧
    vmGet [("d", ["A", "B"])] oFlagAppend._dest =
      some (((vmGet [("d", ["A"])] oFlagAppend._dest).getD []) ++ ["B"]) := by
  have h := append_accumulates_in_order "A" "B"
  constructor
  · have h1 := h.1
    rw [show ("--flag=" ++ "A") = "--flag=A" from rfl,
        show ("--flag=" ++ "B") = "--flag=B" from rfl] at h1
    exact h1
  · exact h.2 oFlagAppend "flag" "B" [("d", ["A"])] [("d", ["A", "B"])]
      (by decide) (by decide)

/-- C7: a choice-typed option accepts exactly the values that are
(case-sensitively) members of its declared choice list: any other value
fails the parse with `InvalidChoice` listing the allowed set, a listed
value is stored verbatim.  Stated generally for `check_type` and on the
concrete choice registry `pChoice` for the full parse. -/
theorem choice_validation (v : String) :
    (∀ (o : OptionSpec) (opt w : String), o._type = "choice" →
      check_type o opt w =
        if w ∈ o._choices then .ok () else .error (.InvalidChoice opt o._choices)) ∧
    parse_args pChoice ["--mode=" ++ v] =
      (if v ∈ oMode._choices then .ok ([("m", [v])], [])
       else .error (.InvalidChoice "mode" ["alpha", "beta"])) := by
  constructor
  · intro o opt w ht
    unfold check_type
    rw [ht, if_pos rfl]
  · have hv : ("--mode=" ++ v).data = '-' :: '-' :: 'm' :: 'o' :: 'd' :: 'e' :: '=' :: v.data := by
      rw [String.data_append]
      rfl
    have hmk : String.mk ['m', 'o', 'd', 'e'] = "mode" := rfl
    by_cases hc : v ∈ oMode._choices
    · rw [if_pos hc]
      simp +decide [parse_args, parseLoop, classify, hv, hmk, handle_long_opt, splitEq,
        lookup_long_opt, isZeroArity, process_opt, check_type, vmStore, vmSet,
        seedDefaults, longPrefixCands, strictPre, fireZero, oMode, pChoice, mk_data,
        (by simpa [oMode] using hc : v ∈ ["alpha", "beta"])]
    · rw [if_neg hc]
      simp +decide [parse_args, parseLoop, classify, hv, hmk, handle_long_opt, splitEq,
        lookup_long_opt, isZeroArity, process_opt, check_type, vmStore, vmSet,
        seedDefaults, longPrefixCands, strictPre, fireZero, oMode, pChoice, mk_data,
        (by simpa [oMode] using hc : v ∉ ["alpha", "beta"])]

/-- Witness for C7: `gamma` is rejected with `InvalidChoice`, `alpha` is
accepted and stored verbatim. -/
theorem choice_validation_witness :
    check_type oMode "mode" "gamma" = .error (.InvalidChoice "mode" ["alpha", "beta"]) ∧
    parse_args pChoice ["--mode=alpha"] = .ok ([("m", ["alpha"])], []) ∧
    parse_args pChoice ["--mode=gamma"] =
      .error (.InvalidChoice "mode" ["alpha", "beta"]) := by
  refine ⟨?_, ?_, ?_⟩
  · have h := (choice_validation "x").1 oMode "mode" "gamma" rfl
    rw [h]
    decide
  · have h := (choice_validation "alpha").2
    rw [if_pos (by decide)] at h
    rw [show ("--mode=alpha" : String) = "--mode=" ++ "alpha" from rfl]
    exact h
  · have h := (choice_validation "gamma").2
    rw [if_neg (by decide)] at h
    rw [show ("--mode=gamma" : String) = "--mode=" ++ "gamma" from rfl]
    exact h

/-- C9: converting a stored string through the `Value` accessors is total
(the Lean model is a total function, mirroring the non-throwing
`istringstream` reads of src/OptionParser.h lines 76-85): when the string
does not parse as the target type the conversion returns the
default-constructed value (`0` for `int`, `false` for `bool`), and a
malformed numeric value is never a parse error — the int-typed option
stores any raw string verbatim and the parse succeeds. -/
theorem value_conversion_permissive (s : String) :
    (istreamExtractInt s = none → valueAsInt s = 0 ∧ valueAsBool s = false) ∧
    parse_args pNum ["--num=" ++ s] = .ok ([("n", [s])], []) := by
  constructor
  · intro h
    unfold valueAsInt valueAsBool
    rw [h]
    exact ⟨rfl, rfl⟩
  · have hs : ("--num=" ++ s).data = '-' :: '-' :: 'n' :: 'u' :: 'm' :: '=' :: s.data := by
      rw [String.data_append]
      rfl
    have hmk : String.mk ['n', 'u', 'm'] = "num" := rfl
    simp +decide [parse_args, parseLoop, classify, hs, hmk, handle_long_opt, splitEq,
      lookup_long_opt, isZeroArity, process_opt, check_type, vmStore, vmSet,
      seedDefaults, longPrefixCands, strictPre, fireZero, oNum, pNum, mk_data]

/-- Witness for C9: `abc` does not parse as a number, converts to `0` and
`false`, and still parses successfully as the value of the int-typed
`--num`. -/
theorem value_conversion_permissive_witness :
    valueAsInt "abc" = 0 ∧ valueAsBool "abc" = false ∧
    parse_args pNum ["--num=abc"] = .ok ([("n", ["abc"])], []) := by
  have h := value_conversion_permissive "abc"
  refine ⟨(h.1 (by decide)).1, (h.1 (by decide)).2, ?_⟩
  have h2 := h.2
  rw [show ("--num=abc" : String) = "--num=" ++ "abc" from rfl]
  exact h2

/-- C10: a newly constructed option starts with action `store`, type
`string` and arity 1 (src/OptionParser.h line 104), so an option declared
with only its flag and destination set consumes exactly one value per
occurrence and stores that raw string verbatim under its destination. -/
theorem default_option_store_one_value (v : String) :
    defaultOptionSpec._action = "store" ∧ defaultOptionSpec._type = "string" ∧
    defaultOptionSpec._nargs = 1 ∧
    parse_args p10 ["--opt", v] = .ok ([("d", [v])], []) := by
  refine ⟨rfl, rfl, rfl, ?_⟩
  have hmk : String.mk ['o', 'p', 't'] = "opt" := rfl
  simp +decide [parse_args, parseLoop, classify, hmk, handle_long_opt, splitEq,
    lookup_long_opt, isZeroArity, process_opt, check_type, vmStore, vmSet,
    seedDefaults, longPrefixCands, strictPre, fireZero, o10, p10, defaultOptionSpec,
    mk_data]

/-- C2: scanning a short cluster, the first character that resolves to a
positive-arity option with a non-empty suffix remaining takes that entire
suffix as its attached value, satisfying one required slot, and no further
character of the token is interpreted as a flag (the handler's result
depends on the suffix only as a value).  Concretely on `pVQF` (with `v`,
`q` zero-arity and `f` of arity 1): `-vqf value` fires `v` and `q` and
sets `f` to `value`; `-fvalue` sets `f` to `value` without treating `v`,
`a`, `l`, `u`, `e` as flags. -/
theorem short_cluster_attached_value (p : OptionParser) (st : ParseState)
    (rest : List String) (c : Char) (cs : List Char) (o : OptionSpec)
    (hlk : lookup_short_opt p c = some o) (hz : isZeroArity o = false)
    (hcs : cs ≠ []) :
    (handle_short_opt p (c :: cs) rest st =
      if rest.length < o._nargs - 1 then
        .error (.MissingArgument (String.mk ['-', c]) (o._nargs - 1))
      else
        match process_opt o (String.mk ['-', c])
            (String.mk cs :: rest.take (o._nargs - 1)) st.values with
        | .error e => .error e
        | .ok vm => .ok ({ st with values := vm }, o._nargs - 1)) ∧
    parse_args pVQF ["-vqf", "value"] =
      .ok ([("v", ["1"]), ("q", ["1"]), ("f", ["value"])], []) ∧
    parse_args pVQF ["-fvalue"] = .ok ([("f", ["value"])], []) := by
  refine ⟨?_, ?_, ?_⟩
  · rcases cs with _ | ⟨d, ds⟩
    · exact absurd rfl hcs
    · unfold handle_short_opt
      rw [hlk]
      simp only [hz, Bool.false_eq_true, if_false, List.isEmpty_cons]
  · simp +decide [parse_args, parseLoop, classify, handle_short_opt, lookup_short_opt,
      List.lookup, isZeroArity, process_opt, check_type, vmStore, vmSet, seedDefaults,
      fireZero, oVerbose, oQuiet, oFile, pVQF, mk_data]
  · simp +decide [parse_args, parseLoop, classify, handle_short_opt, lookup_short_opt,
      List.lookup, isZeroArity, process_opt, check_type, vmStore, vmSet, seedDefaults,
      fireZero, oVerbose, oQuiet, oFile, pVQF, mk_data]

/-- Witness for C2: scanning `-fx` in `pVQF` takes `x` as the attached
value of `f` (the suffix is never looked up as flags). -/
theorem short_cluster_attached_value_witness :
    handle_short_opt pVQF ['f', 'x'] [] ⟨[], []⟩ =
      .ok (⟨[("f", ["x"])], []⟩, 0) ∧
    parse_args pVQF ["-fvalue"] = .ok ([("f", ["value"])], []) := by
  have h := short_cluster_attached_value pVQF ⟨[], []⟩ [] 'f' ['x'] oFile
    (by decide) (by decide) (by decide)
  constructor
  · rw [h.1]
    decide
  · exact h.2.2

/-- C4: for a `store`/`append` option of arity N ≥ 1, an inline `=value`
satisfies exactly one required slot and the remaining N-1 values are taken
from the subsequent tokens in order; when fewer tokens remain than still
required, the parse fails with `MissingArgument` naming the option and
the number of values still needed. -/
theorem long_inline_arity_consumption (p : OptionParser) (body nm iv : List Char)
    (o : OptionSpec) (rest : List String) (st : ParseState)
    (hsp : splitEq body = (nm, some iv))
    (hlk : lookup_long_opt p (String.mk nm) = .ok o)
    (ha : o._action = "store" ∨ o._action = "append") :
    (o._nargs - 1 ≤ rest.length →
      handle_long_opt p body rest st =
        match process_opt o (String.mk nm)
            (String.mk iv :: rest.take (o._nargs - 1)) st.values with
        | .error e => .error e
        | .ok vm => .ok ({ st with values := vm }, o._nargs - 1)) ∧
    (rest.length < o._nargs - 1 →
      handle_long_opt p body rest st =
        .error (.MissingArgument (String.mk nm) (o._nargs - 1))) := by
  have hz : isZeroArity o = false := by
    rcases ha with h | h <;> simp [isZeroArity, h]
  constructor
  · intro hle
    unfold handle_long_opt
    rw [hsp]
    simp only [hlk, hz, Bool.false_eq_true, if_false]
    rw [if_neg (by omega)]
  · intro hlt
    unfold handle_long_opt
    rw [hsp]
    simp only [hlk, hz, Bool.false_eq_true, if_false]
    rw [if_pos hlt]

/-- Witness for C4 on the arity-2 option `--pair`: `--pair=x y` succeeds
consuming `y`; `--pair=x` with no token left fails with `MissingArgument`
still needing 1 value. -/
theorem long_inline_arity_consumption_witness :
    handle_long_opt pPair "pair=x".data ["y"] ⟨[], []⟩ =
      .ok (⟨[("pr", ["y"])], []⟩, 1) ∧
    handle_long_opt pPair "pair=x".data [] ⟨[], []⟩ =
      .error (.MissingArgument "pair" 1) := by
  constructor
  · have h := (long_inline_arity_consumption pPair "pair=x".data "pair".data "x".data
      oPair ["y"] ⟨[], []⟩ (by decide) (by decide) (Or.inl rfl)).1 (by decide)
    rw [h]
    decide
  · have h := (long_inline_arity_consumption pPair "pair=x".data "pair".data "x".data
      oPair [] ⟨[], []⟩ (by decide) (by decide) (Or.inl rfl)).2 (by decide)
    rw [h]
    decide

/-- C3: when option scanning reaches a token that is exactly `--`, the
engine terminates successfully at that marker and every token after it is
appended verbatim and in its original order to the leftover list — even
tokens that syntactically look like options: for any prefix `pre` that
scans successfully without itself containing the marker, running the loop
on `pre ++ "--" :: rest` succeeds with the same values and the whole
`rest` appended unchanged to the leftovers. -/
theorem ddash_terminates_scanning (p : OptionParser) :
    ∀ (pre rest : List String) (st0 st1 : ParseState),
      "--" ∉ pre → parseLoop p pre st0 = .ok st1 →
      parseLoop p (pre ++ "--" :: rest) st0 =
        .ok { st1 with leftover := st1.leftover ++ rest }
  | [], rest, st0, st1, hmem, h => by
      rw [parseLoop.eq_1] at h
      obtain rfl : st0 = st1 := Except.ok.inj h
      rw [List.nil_append, parseLoop.eq_2]
      rw [show classify "--" = TokKind.ddash from by decide]
  | tok :: pre, rest, st0, st1, hmem, h => by
      have hmem1 : tok ≠ "--" := fun he => hmem (by rw [he]; exact List.mem_cons_self _ _)
      have hmem2 : "--" ∉ pre := fun hm => hmem (List.mem_cons_of_mem _ hm)
      rw [parseLoop.eq_2] at h
      rw [List.cons_append, parseLoop.eq_2]
      rcases hcl : classify tok with _ | body | cluster | _
      · exact absurd (classify_eq_ddash hcl) hmem1
      · rw [hcl] at h
        simp only [] at h ⊢
        rcases hh : handle_long_opt p body pre st0 with e | ⟨st2, k⟩
        · rw [hh] at h
          simp at h
        · rw [hh] at h
          simp only [] at h
          obtain ⟨hk, hext⟩ := handle_long_opt_ok_extend ("--" :: rest) hh
          simp only [hext, List.drop_append_of_le_length hk]
          exact ddash_terminates_scanning p (pre.drop k) rest st2 st1
            (fun hm => hmem2 (List.drop_subset _ _ hm)) h
      · rw [hcl] at h
        simp only [] at h ⊢
        rcases hh : handle_short_opt p cluster pre st0 with e | ⟨st2, k⟩
        · rw [hh] at h
          simp at h
        · rw [hh] at h
          simp only [] at h
          obtain ⟨hk, hext⟩ := handle_short_opt_ok_extend ("--" :: rest) cluster pre st0 st2 k hh
          simp only [hext, List.drop_append_of_le_length hk]
          exact ddash_terminates_scanning p (pre.drop k) rest st2 st1
            (fun hm => hmem2 (List.drop_subset _ _ hm)) h
      · rw [hcl] at h
        simp only [] at h ⊢
        exact ddash_terminates_scanning p pre rest _ st1 hmem2 h
termination_by pre => pre.length
decreasing_by
  all_goals simp [List.length_drop]
  all_goals omega

/-- Witness for C3: after scanning `-v`, the marker `--` stops scanning
and the option-looking tokens `-q` and `--file` pass through verbatim. -/
theorem ddash_terminates_scanning_witness :
    ("--" ∉ (["-v"] : List String)) ∧
    parseLoop pVQF (["-v"] ++ "--" :: ["-q", "--file"]) ⟨[], []⟩ =
      .ok ⟨[("v", ["1"])], ["-q", "--file"]⟩ := by
  have hpre : parseLoop pVQF ["-v"] ⟨[], []⟩ = .ok ⟨[("v", ["1"])], []⟩ := by
    simp +decide [parseLoop, classify, handle_short_opt, lookup_short_opt, List.lookup,
      isZeroArity, fireZero, vmStore, vmSet, oVerbose, oQuiet, oFile, pVQF]
  refine ⟨by decide, ?_⟩
  have h := ddash_terminates_scanning pVQF ["-v"] ["-q", "--file"]
    ⟨[], []⟩ ⟨[("v", ["1"])], []⟩ (by decide) hpre
  simpa using h

end optparse
